import Mathlib

/-!
Verification of the EasyBuild GitLab CI hook (gitlab_ci_hook.py, gitlab_hook.py,
inject_defaults.py) against its natural-language specification.

The Python code is shallowly embedded:
* Python `dict`s (which preserve insertion order) become ordered association
  lists `List (String × α)`; `d[k] = v` is `alInsert` (replace in place when the
  key is present, append otherwise), `d.get(k)` / `k in d` is `alGet`.
* YAML-ish values become the inductive type `Val`.
* External calls that may raise (`ActiveMNS().det_full_module_name`) are
  modelled by `Option`-valued fields on the input records: `none` models the
  call raising, `some m` models it returning identity `m`.
* `os.environ` and `sys.argv` become explicit parameters
  `env : String → Option String` and `argv : List String`.
* Python strings are Lean `String`s; `str.replace` with a one-character
  pattern is the character-wise `pyReplaceL` on the underlying `List Char`.
-/

namespace EBHook

/-- YAML-like values appearing in the generated pipeline document. -/
inductive Val where
  | vstr : String → Val
  | vnat : Nat → Val
  | vlist : List Val → Val
  | vmap : List (String × Val) → Val

/-- Lookup in an insertion-ordered dictionary (Python `d.get(k)` / `k in d`). -/
def alGet {α : Type} (k : String) : List (String × α) → Option α
  | [] => none
  | (k', v) :: rest => if k' = k then some v else alGet k rest

/-- Assignment `d[k] = v` on an insertion-ordered dictionary: replaces the
value in place when the key is present, appends otherwise. -/
def alInsert {α : Type} : List (String × α) → String → α → List (String × α)
  | [], k, v => [(k, v)]
  | (k', v') :: rest, k, v => if k' = k then (k', v) :: rest else (k', v') :: alInsert rest k v

/-- Python `pipeline.get(key, {})` for a dict-valued entry: the stored mapping,
or the empty mapping when the key is absent. -/
def asMapD (v : Option Val) : List (String × Val) :=
  match v with
  | some (Val.vmap m) => m
  | _ => []

/-- Python `str.replace(old, new)` for a one-character pattern `old`, on the
underlying character list: every occurrence of `old` is replaced by `new`. -/
def pyReplaceL (l : List Char) (old : Char) (new : List Char) : List Char :=
  l.flatMap (fun c => if c = old then new else [c])

/-- Character-level core of `_sanitize_job_name` (identical in
`src/gitlab_ci_hook.py` lines 522-528 and `src/gitlab_hook.py` lines 518-526):

    sanitized = name.replace('/', '-').replace(':', '-').replace('+', 'plus')
    sanitized = sanitized.replace('(', '').replace(')', '').replace(' ', '-')
    if sanitized and not (sanitized[0].isalpha() or sanitized[0] == '_'):
        sanitized = 'job-' + sanitized
    return sanitized or 'unknown-job'

`Char.isAlpha` stands for Python's `str.isalpha`; the two agree on ASCII. -/
def sanitizeCore (name : List Char) : List Char :=
  let sanitized := pyReplaceL (pyReplaceL (pyReplaceL name '/' ['-']) ':' ['-']) '+'
    ['p', 'l', 'u', 's']
  let sanitized := pyReplaceL (pyReplaceL (pyReplaceL sanitized '(' []) ')' []) ' ' ['-']
  let sanitized :=
    match sanitized with
    | [] => sanitized
    | c :: _ => if !(c.isAlpha || c == '_') then ['j', 'o', 'b', '-'] ++ sanitized else sanitized
  match sanitized with
  | [] => ['u', 'n', 'k', 'n', 'o', 'w', 'n', '-', 'j', 'o', 'b']
  | c :: rest => c :: rest

/-- `_sanitize_job_name` on Lean strings. -/
def sanitize_job_name (name : String) : String :=
  String.mk (sanitizeCore name.data)

/-- What the six successive one-character `replace` calls of the source do to a
single character (the combined single pass): `/`, `:` and space become a
hyphen, `+` becomes the word "plus", parentheses are deleted, everything else
is kept. -/
def sanitizeCharModel (c : Char) : List Char :=
  if c = '/' then ['-']
  else if c = ':' then ['-']
  else if c = '+' then ['p', 'l', 'u', 's']
  else if c = '(' then []
  else if c = ')' then []
  else if c = ' ' then ['-']
  else [c]

/-- Modelled from the claim's words (claim C3 / spec 4.1): same sanitizer, but
with `(` and `)` replaced by hyphens like `/`, `:` and space, instead of being
deleted as the source does. Used only to compare the claimed behaviour with the
source's behaviour. -/
def sanitizeCharClaimC3 (c : Char) : List Char :=
  if c = '/' ∨ c = ':' ∨ c = ' ' ∨ c = '(' ∨ c = ')' then ['-']
  else if c = '+' then ['p', 'l', 'u', 's']
  else [c]

/-- Modelled from the claim's words (claim C3 / spec 4.1): the full claimed
sanitizer, with the claimed per-character replacement, the empty-string
placeholder and the marker-segment rule. -/
def sanitizeNameClaimC3 (s : String) : String :=
  let t := s.data.flatMap sanitizeCharClaimC3
  let t :=
    match t with
    | [] => t
    | c :: _ => if !(c.isAlpha || c == '_') then ['j', 'o', 'b', '-'] ++ t else t
  match t with
  | [] => "unknown-job"
  | _ => String.mk t

/-- The amended description of the sanitizer: one character-wise pass that maps
`/`, `:` and space to a hyphen, `+` to "plus" and deletes `(` and `)`,
followed by the marker-segment rule and the empty fallback. -/
def sanitizeNameAmendedC3 (s : String) : String :=
  let t := s.data.flatMap sanitizeCharModel
  let t :=
    match t with
    | [] => t
    | c :: _ => if !(c.isAlpha || c == '_') then ['j', 'o', 'b', '-'] ++ t else t
  match t with
  | [] => "unknown-job"
  | _ => String.mk t

/-- One dependency entry of an easyconfig: the `external_module` flag
(`d.get('external_module', False)`) and the result of resolving its canonical
identity via `ActiveMNS().det_full_module_name(dep)` — `none` models the call
raising, `some m` models it returning the module identity `m`. -/
structure DepSpec where
  externalModule : Bool
  resolvedName : Option String

/-- One easyconfig record as consumed by `_process_easyconfigs_for_jobs`
(`src/gitlab_ci_hook.py` lines 161-262; the edge logic of
`src/gitlab_hook.py` lines 206-317 is identical). `resolvedModuleName` is the
result of `ActiveMNS().det_full_module_name(ec)` (`none` models the call
raising), `allDependencies` is `ec.all_dependencies`. -/
structure ECSpec where
  name : String
  version : String
  spec : String
  toolchain : String
  resolvedModuleName : Option String
  allDependencies : List DepSpec

/-- The `job_info` dict built for one easyconfig. -/
structure JobInfo where
  name : String
  module : String
  easyconfig_path : String
  dependencies : List String
  job_dependencies : List String
  toolchain : String
  version : String

/-- The mutable run state of `_process_easyconfigs_for_jobs`: the globals
`PIPELINE_JOBS` and `JOB_DEPENDENCIES` plus the local `module_to_job`. -/
structure ProcState where
  pipelineJobs : List (String × JobInfo)
  jobDependencies : List (String × List String)
  moduleToJob : List (String × JobInfo)

/-- The non-external dependencies of a spec whose identity resolves
(`all_deps = [d for d in ec.all_dependencies if not d.get('external_module', False)]`
followed by the per-dependency `det_full_module_name` loop, which skips a
dependency whose resolution raises). -/
def nonExternalResolvedDeps (ec : ECSpec) : List String :=
  (ec.allDependencies.filter (fun d => !d.externalModule)).filterMap DepSpec.resolvedName

/-- One iteration of the `for i, easyconfig in enumerate(easyconfigs)` loop of
`_process_easyconfigs_for_jobs`: a spec whose own identity does not resolve is
skipped (`continue`), otherwise its job entry is built — `job_deps` keeps only
the resolved non-external dependencies already present in `module_to_job` —
and the job is inserted into `PIPELINE_JOBS`, `JOB_DEPENDENCIES` and
`module_to_job` after the edges are computed. -/
def processOne (st : ProcState) (easyconfig : ECSpec) : ProcState :=
  match easyconfig.resolvedModuleName with
  | none => st
  | some module_name =>
    let dep_mod_names := nonExternalResolvedDeps easyconfig
    let job_deps := dep_mod_names.filter (fun n => (alGet n st.moduleToJob).isSome)
    let job_info : JobInfo :=
      { name := easyconfig.name ++ "-" ++ easyconfig.version ++ ".eb"
        module := module_name
        easyconfig_path := easyconfig.spec
        dependencies := dep_mod_names
        job_dependencies := job_deps
        toolchain := easyconfig.toolchain
        version := easyconfig.version }
    { pipelineJobs := alInsert st.pipelineJobs module_name job_info
      jobDependencies := alInsert st.jobDependencies module_name job_deps
      moduleToJob := alInsert st.moduleToJob module_name job_info }

/-- `_process_easyconfigs_for_jobs`: the loop over all easyconfigs, starting
from the reset (empty) global state. -/
def process_easyconfigs_for_jobs (easyconfigs : List ECSpec) : ProcState :=
  easyconfigs.foldl processOne ⟨[], [], []⟩

/-- The order hypothesis of claim C1, as an executable check: walking the input
in order, every resolved non-external dependency of a spec is among the module
identities resolved by strictly earlier specs. -/
def deps_before_dependents : List ECSpec → List String → Bool
  | [], _ => true
  | ec :: rest, seen =>
    (nonExternalResolvedDeps ec).all (fun n => seen.contains n) &&
      deps_before_dependents rest
        (seen ++ (match ec.resolvedModuleName with | some m => [m] | none => []))

/-- Drop the dependencies flagged `external_module` from a spec. -/
def stripExternalDeps (ec : ECSpec) : ECSpec :=
  { ec with allDependencies := ec.allDependencies.filter (fun d => !d.externalModule) }

/-- ASCII whitespace, as stripped by Python `str.strip()` (restricted to the
ASCII range, where Python and this model agree). -/
def isSpaceChar (c : Char) : Bool :=
  c = ' ' || c = '\t' || c = '\n' || c = '\r'

/-- Python `str.strip()`: drop whitespace from both ends. -/
def pyStrip (s : String) : String :=
  String.mk (((s.data.dropWhile isSpaceChar).reverse.dropWhile isSpaceChar).reverse)

/-- `value` is the self-referential placeholder for `key`
(`isinstance(value, str) and value.strip() == f'${key}'`, e.g.
`EB_PATH: $EB_PATH`). -/
def selfRef (key : String) (value : Val) : Bool :=
  match value with
  | Val.vstr s => decide (pyStrip s = "$" ++ key)
  | _ => false

/-- One iteration of the child-variable merge loop of `_inject_configuration`
(src/gitlab_ci_hook.py lines 403-410): skip a self-referential pair, skip a
key already present, otherwise add the pair. -/
def addChildVar (vars : List (String × Val)) (kv : String × Val) : List (String × Val) :=
  if selfRef kv.1 kv.2 then vars
  else if (alGet kv.1 vars).isSome then vars
  else vars ++ [kv]

/-- `if key in src: dst[key] = src[key]` on a fresh dict: the singleton entry
when the key is present, nothing otherwise. -/
def optEntry (k : String) (src : List (String × Val)) : List (String × Val) :=
  match alGet k src with
  | some v => [(k, v)]
  | none => []

/-- The fixed fallback retry policy
`{max: 2, when: [runner_system_failure, stuck_or_timeout_failure, job_execution_timeout]}`. -/
def retry_fallback : Val :=
  Val.vmap [("max", Val.vnat 2),
    ("when", Val.vlist [Val.vstr "runner_system_failure", Val.vstr "stuck_or_timeout_failure",
      Val.vstr "job_execution_timeout"])]

/-- The `default` section entries assembled by both mergers, in source order:
`before_script`, `after_script`, `tags`, `id_tokens` copied when present,
`retry` always (external value or the fixed fallback), `timeout` and `image`
copied when present. Python's `.copy()` on the copied values is the identity in
this pure model. -/
def default_entries (config : List (String × Val)) : List (String × Val) :=
  optEntry "before_script" config ++ (optEntry "after_script" config ++
    (optEntry "tags" config ++ (optEntry "id_tokens" config ++
      (("retry", (alGet "retry" config).getD retry_fallback) ::
        (optEntry "timeout" config ++ optEntry "image" config)))))

/-- The key is one of the three reserved top-level sections. -/
def isMetaKey (k : String) : Bool :=
  decide (k = "stages") || decide (k = "variables") || decide (k = "default")

/-- The canonical reordering at the end of `_inject_configuration`
(src/gitlab_ci_hook.py lines 413-428): `stages`, `variables`, the `default`
section when non-empty, then every other entry in insertion order. -/
def reorder_pipeline (dflt : List (String × Val)) (pipeline : List (String × Val)) :
    List (String × Val) :=
  optEntry "stages" pipeline ++ (optEntry "variables" pipeline ++
    ((if dflt.isEmpty then [] else [("default", Val.vmap dflt)]) ++
      pipeline.filter (fun kv => !isMetaKey kv.1)))

/-- `_inject_configuration` (src/gitlab_ci_hook.py lines 367-431). -/
def inject_configuration (pipeline default_config child_variables : List (String × Val)) :
    List (String × Val) :=
  let dflt := default_entries default_config
  let pipeline :=
    if child_variables.isEmpty then pipeline
    else alInsert pipeline "variables"
      (Val.vmap (child_variables.foldl addChildVar (asMapD (alGet "variables" pipeline))))
  reorder_pipeline dflt pipeline

/-- Python `dst.update(src)` and, more generally, a sequence of `dst[k] = v`
assignments performed in order. -/
def dictUpdate (dst : List (String × Val)) (src : List (String × Val)) : List (String × Val) :=
  src.foldl (fun d kv => alInsert d kv.1 kv.2) dst

/-- `inject_pipeline_metadata` (src/inject_defaults.py lines 45-92): the
default section starts from the document's existing `default` and receives the
same assignments as `default_entries` in the same order, and the child
variables are merged with a plain `dict.update` — overwriting existing keys,
with no self-reference check. -/
def inject_pipeline_metadata (data config child_variables : List (String × Val)) :
    List (String × Val) :=
  let dflt := dictUpdate (asMapD (alGet "default" data)) (default_entries config)
  let data := alInsert data "default" (Val.vmap dflt)
  if child_variables.isEmpty then data
  else alInsert data "variables"
    (Val.vmap (dictUpdate (asMapD (alGet "variables" data)) child_variables))

/-- Characters after the first `=` (Python `arg.split('=', 1)[1]`; only applied
to arguments that contain `=`). -/
def after_first_eq : List Char → List Char
  | [] => []
  | c :: rest => if c = '=' then rest else after_first_eq rest

/-- Python `arg.split('=', 1)[1]` on strings. -/
def split_eq_val (s : String) : String :=
  String.mk (after_first_eq s.data)

/-- `os.path.basename`: the part after the last `/`. -/
def basename (s : String) : String :=
  String.mk (s.data.foldl (fun acc c => if c = '/' then [] else acc ++ [c]) [])

/-- The `while i < len(argv)` loop of `_create_gitlab_job`
(src/gitlab_ci_hook.py lines 448-485), already past the program name: it
extracts the `--tmp-logdir` and `--buildpath` values, drops `--hooks`/`--job`
options (together with a following non-dash value argument), and keeps every
other argument that is not an `.eb` file. -/
def parse_argv_loop (args : List String) (tmp_logdir buildpath : Option String)
    (eb_args : List String) : Option String × Option String × List String :=
  match args with
  | [] => (tmp_logdir, buildpath, eb_args)
  | arg :: rest =>
    let tmp_logdir :=
      if arg.startsWith "--tmp-logdir=" then some (split_eq_val arg)
      else
        match rest with
        | r :: _ => if arg = "--tmp-logdir" then some r else tmp_logdir
        | [] => tmp_logdir
    let buildpath :=
      if arg.startsWith "--buildpath=" then some (split_eq_val arg)
      else
        match rest with
        | r :: _ => if arg = "--buildpath" then some r else buildpath
        | [] => buildpath
    let skip_this := arg.startsWith "--hooks" || arg.startsWith "--job"
    let skip_next := skip_this && !arg.contains '=' &&
      (match rest with | r :: _ => !r.startsWith "-" | [] => false)
    let eb_args := if !skip_this && !arg.endsWith ".eb" then eb_args ++ [arg] else eb_args
    if skip_next then
      match rest with
      | _ :: rest2 => parse_argv_loop rest2 tmp_logdir buildpath eb_args
      | [] => (tmp_logdir, buildpath, eb_args)
    else parse_argv_loop rest tmp_logdir buildpath eb_args

/-- The argv scan of `_create_gitlab_job`, skipping the program name
(`if i == 0: continue`). -/
def parse_argv (argv : List String) : Option String × Option String × List String :=
  parse_argv_loop (argv.drop 1) none none []

/-- Python `os.environ.get('DRYRUN', '').lower() in ['1', 'true', 'yes']`. -/
def dryrun_enabled (env : String → Option String) : Bool :=
  ["1", "true", "yes"].contains (((env "DRYRUN").getD "").toLower)

/-- `_create_gitlab_job` (src/gitlab_ci_hook.py lines 434-519) with `sys.argv`
and `os.environ` passed explicitly. -/
def create_gitlab_job (argv : List String) (env : String → Option String)
    (job_info : JobInfo) (stage_name : String) : List (String × Val) :=
  let parsed := parse_argv argv
  let tmp_logdir := parsed.1
  let buildpath := parsed.2.1
  let eb_args := parsed.2.2
  let eb_command := "eb " ++ String.intercalate " " eb_args
  let eb_command := if dryrun_enabled env then eb_command ++ " --dry-run" else eb_command
  let eb_command := eb_command ++ " " ++ basename job_info.easyconfig_path
  let artifact_paths := ["*.log", "*.out", "*.err"]
  let artifact_paths :=
    match tmp_logdir with
    | some t => (t ++ "/*.log") :: artifact_paths
    | none => artifact_paths
  let artifact_paths :=
    match buildpath with
    | some b =>
      match tmp_logdir with
      | some _ => artifact_paths.take 1 ++ (b ++ "/**/*.log") :: artifact_paths.drop 1
      | none => (b ++ "/**/*.log") :: artifact_paths
    | none => artifact_paths
  [("stage", Val.vstr stage_name),
   ("script", Val.vlist [Val.vstr eb_command]),
   ("variables", Val.vmap
     [("EB_MODULE_NAME", Val.vstr job_info.module),
      ("SCHEDULER_PARAMETERS",
        Val.vstr ((env "SCHEDULER_PARAMETERS").getD "$SCHEDULER_PARAMETERS"))]),
   ("artifacts", Val.vmap
     [("when", Val.vstr "always"),
      ("paths", Val.vlist (artifact_paths.map Val.vstr)),
      ("expire_in", Val.vstr "1 week")])]

/-- The global `variables` section of `_generate_base_pipeline`
(src/gitlab_ci_hook.py lines 306-315). -/
def base_variables (env : String → Option String) : List (String × Val) :=
  [("EASYBUILD_MODULES_TOOL", Val.vstr "Lmod"),
   ("SCHEDULER_PARAMETERS", Val.vstr ((env "SCHEDULER_PARAMETERS").getD "$SCHEDULER_PARAMETERS")),
   ("patheb", Val.vstr ((env "patheb").getD "$patheb")),
   ("CUDA_COMPUTE_CAPABILITIES", Val.vstr ((env "CUDA_COMPUTE_CAPABILITIES").getD "8.0")),
   ("DRYRUN", Val.vstr ((env "DRYRUN").getD "$DRYRUN"))]

/-- One iteration of the job loop of `_generate_base_pipeline`
(src/gitlab_ci_hook.py lines 318-338): insert the job under its sanitized
name with `stage` forced to `'build'`, then attach a `needs` list holding the
sanitized dependencies that are keys of the pipeline built so far. -/
def add_job_to_pipeline (argv : List String) (env : String → Option String)
    (jobDependencies : List (String × List String))
    (pipeline : List (String × Val)) (mj : String × JobInfo) : List (String × Val) :=
  let module_name := mj.1
  let job_info := mj.2
  let sanitized_name := sanitize_job_name module_name
  let job_yaml := alInsert (create_gitlab_job argv env job_info "build") "stage" (Val.vstr "build")
  let pipeline := alInsert pipeline sanitized_name (Val.vmap job_yaml)
  let deps := (alGet module_name jobDependencies).getD []
  let pipeline_deps := deps.filterMap (fun dep =>
    let sanitized_dep := sanitize_job_name dep
    if (alGet sanitized_dep pipeline).isSome then some sanitized_dep else none)
  if pipeline_deps.isEmpty then pipeline
  else alInsert pipeline sanitized_name
    (Val.vmap (alInsert job_yaml "needs" (Val.vlist (pipeline_deps.map Val.vstr))))

/-- `_generate_base_pipeline` (src/gitlab_ci_hook.py lines 301-340). -/
def generate_base_pipeline (argv : List String) (env : String → Option String)
    (pipelineJobs : List (String × JobInfo)) (jobDependencies : List (String × List String)) :
    List (String × Val) :=
  pipelineJobs.foldl (add_job_to_pipeline argv env jobDependencies)
    [("stages", Val.vlist [Val.vstr "build"]), ("variables", Val.vmap (base_variables env))]

/-- `_generate_and_inject_pipeline` (src/gitlab_ci_hook.py lines 265-298) as a
function from the run state to the document written to
`easybuild-child-pipeline.yml`: `none` models the early `return` that writes no
manifest (the logged warning is its only effect). The `.gitlab-ci.yml` load is
passed as an optional pair (default section, child variables), `none`
modelling a missing file; the identical guard of `_generate_gitlab_pipeline`
(src/gitlab_hook.py lines 365-368) behaves the same way. -/
def generate_and_inject_pipeline (argv : List String) (env : String → Option String)
    (pipelineJobs : List (String × JobInfo)) (jobDependencies : List (String × List String))
    (gitlab_ci : Option (List (String × Val) × List (String × Val))) :
    Option (List (String × Val)) :=
  if pipelineJobs.isEmpty then none
  else
    let pipeline := generate_base_pipeline argv env pipelineJobs jobDependencies
    match gitlab_ci with
    | some cfg => some (inject_configuration pipeline cfg.1 cfg.2)
    | none => some pipeline

/-! ## General lemmas about the dictionary model -/

theorem alGet_nil {α : Type} (k : String) : alGet (α := α) k [] = none := rfl

theorem alGet_cons {α : Type} (k k' : String) (v : α) (rest : List (String × α)) :
    alGet k ((k', v) :: rest) = if k' = k then some v else alGet k rest := rfl

theorem alGet_append {α : Type} (k : String) (l₁ l₂ : List (String × α)) :
    alGet k (l₁ ++ l₂) =
      match alGet k l₁ with
      | some v => some v
      | none => alGet k l₂ := by
  induction l₁ with
  | nil => simp [alGet]
  | cons hd tl ih =>
    obtain ⟨k', v⟩ := hd
    by_cases h : k' = k <;> simp [alGet, h, ih]

theorem alGet_alInsert_self {α : Type} (l : List (String × α)) (k : String) (v : α) :
    alGet k (alInsert l k v) = some v := by
  induction l with
  | nil => simp [alInsert, alGet]
  | cons hd tl ih =>
    obtain ⟨k', v'⟩ := hd
    by_cases h : k' = k <;> simp [alInsert, alGet, h, ih]

theorem alGet_alInsert_ne {α : Type} (l : List (String × α)) (k k' : String) (v : α)
    (h : k' ≠ k) : alGet k (alInsert l k' v) = alGet k l := by
  induction l with
  | nil => simp [alInsert, alGet, h]
  | cons hd tl ih =>
    obtain ⟨k₀, v₀⟩ := hd
    by_cases h₀ : k₀ = k'
    · subst h₀
      simp only [alInsert, if_pos rfl, alGet, if_neg h]
    · by_cases h₁ : k₀ = k <;> simp [alInsert, alGet, h₀, h₁, ih, Ne.symm h]

theorem alInsert_of_alGet_eq {α : Type} (l : List (String × α)) (k : String) (v : α)
    (h : alGet k l = some v) : alInsert l k v = l := by
  induction l with
  | nil => simp [alGet] at h
  | cons hd tl ih =>
    obtain ⟨k', v'⟩ := hd
    by_cases h₀ : k' = k
    · simp [alGet, h₀] at h
      simp [alInsert, h₀, h]
    · simp [alGet, h₀] at h
      simp [alInsert, h₀, ih h]

theorem alInsert_map_fst_of_mem {α : Type} (l : List (String × α)) (k : String) (v : α)
    (h : k ∈ l.map Prod.fst) : (alInsert l k v).map Prod.fst = l.map Prod.fst := by
  induction l with
  | nil => simp at h
  | cons hd tl ih =>
    obtain ⟨k', v'⟩ := hd
    by_cases h₀ : k' = k
    · simp [alInsert, h₀]
    · simp only [List.map_cons, List.mem_cons] at h
      rcases h with h | h
      · exact absurd h.symm h₀
      · simp [alInsert, h₀, ih h]

theorem alInsert_map_fst_of_not_mem {α : Type} (l : List (String × α)) (k : String) (v : α)
    (h : k ∉ l.map Prod.fst) : (alInsert l k v).map Prod.fst = l.map Prod.fst ++ [k] := by
  induction l with
  | nil => simp [alInsert]
  | cons hd tl ih =>
    obtain ⟨k', v'⟩ := hd
    simp only [List.map_cons, List.mem_cons, not_or] at h
    by_cases h₀ : k' = k
    · exact absurd h₀.symm h.1
    · simp [alInsert, h₀, ih h.2]

theorem alGet_eq_none_of_not_mem {α : Type} (l : List (String × α)) (k : String)
    (h : k ∉ l.map Prod.fst) : alGet k l = none := by
  induction l with
  | nil => rfl
  | cons hd tl ih =>
    obtain ⟨k', v'⟩ := hd
    simp only [List.map_cons, List.mem_cons, not_or] at h
    have hne : ¬k' = k := fun hh => h.1 hh.symm
    simp [alGet, hne, ih h.2]

theorem alGet_isSome_of_mem {α : Type} (l : List (String × α)) (k : String)
    (h : k ∈ l.map Prod.fst) : (alGet k l).isSome = true := by
  induction l with
  | nil => simp at h
  | cons hd tl ih =>
    obtain ⟨k', v'⟩ := hd
    by_cases h₀ : k' = k
    · simp [alGet, h₀]
    · simp only [List.map_cons, List.mem_cons] at h
      rcases h with h | h
      · exact absurd h.symm h₀
      · simp [alGet, h₀, ih h]

/-! ## The sanitizer -/

theorem pyReplaceL_append (l₁ l₂ : List Char) (old : Char) (new : List Char) :
    pyReplaceL (l₁ ++ l₂) old new = pyReplaceL l₁ old new ++ pyReplaceL l₂ old new := by
  simp [pyReplaceL]

/-- The six sequential single-character replacements collapse into one
character-wise pass: no replacement output contains a character that a later
replacement rewrites. -/
theorem sanitize_replace_chain (l : List Char) :
    pyReplaceL (pyReplaceL (pyReplaceL
        (pyReplaceL (pyReplaceL (pyReplaceL l '/' ['-']) ':' ['-']) '+' ['p', 'l', 'u', 's'])
        '(' []) ')' []) ' ' ['-']
      = l.flatMap sanitizeCharModel := by
  induction l with
  | nil => rfl
  | cons c rest ih =>
    have step : pyReplaceL (c :: rest) '/' ['-']
        = (if c = '/' then ['-'] else [c]) ++ pyReplaceL rest '/' ['-'] := by
      by_cases h : c = '/' <;> simp [pyReplaceL, h]
    rw [step]
    rw [pyReplaceL_append, pyReplaceL_append, pyReplaceL_append, pyReplaceL_append,
      pyReplaceL_append]
    rw [ih]
    have hsingle : pyReplaceL (pyReplaceL (pyReplaceL
        (pyReplaceL (pyReplaceL (if c = '/' then ['-'] else [c]) ':' ['-']) '+'
          ['p', 'l', 'u', 's']) '(' []) ')' []) ' ' ['-'] = sanitizeCharModel c := by
      by_cases h1 : c = '/'
      · simp [h1, pyReplaceL, sanitizeCharModel]
      · by_cases h2 : c = ':'
        · simp [h1, h2, pyReplaceL, sanitizeCharModel]
        · by_cases h3 : c = '+'
          · simp [h1, h2, h3, pyReplaceL, sanitizeCharModel]
          · by_cases h4 : c = '('
            · simp [h1, h2, h3, h4, pyReplaceL, sanitizeCharModel]
            · by_cases h5 : c = ')'
              · simp [h1, h2, h3, h4, h5, pyReplaceL, sanitizeCharModel]
              · by_cases h6 : c = ' '
                · simp [h1, h2, h3, h4, h5, h6, pyReplaceL, sanitizeCharModel]
                · simp [h1, h2, h3, h4, h5, h6, pyReplaceL, sanitizeCharModel]
    rw [hsingle]
    simp

/-- Characters produced by the combined replacement pass are inert: running the
pass on them again leaves them unchanged. -/
theorem sanitizeCharModel_inert (c : Char) :
    ∀ d ∈ sanitizeCharModel c, sanitizeCharModel d = [d] := by
  intro d hd
  by_cases h1 : c = '/'
  · simp [sanitizeCharModel, h1] at hd
    subst hd
    decide
  · by_cases h2 : c = ':'
    · simp [sanitizeCharModel, h1, h2] at hd
      subst hd
      decide
    · by_cases h3 : c = '+'
      · simp [sanitizeCharModel, h1, h2, h3] at hd
        rcases hd with rfl | rfl | rfl | rfl <;> decide
      · by_cases h4 : c = '('
        · simp [sanitizeCharModel, h1, h2, h3, h4] at hd
        · by_cases h5 : c = ')'
          · simp [sanitizeCharModel, h1, h2, h3, h4, h5] at hd
          · by_cases h6 : c = ' '
            · simp [sanitizeCharModel, h1, h2, h3, h4, h5, h6] at hd
              subst hd
              decide
            · simp [sanitizeCharModel, h1, h2, h3, h4, h5, h6] at hd
              subst hd
              simp [sanitizeCharModel, h1, h2, h3, h4, h5, h6]

theorem flatMap_inert (l : List Char) (h : ∀ c ∈ l, sanitizeCharModel c = [c]) :
    l.flatMap sanitizeCharModel = l := by
  induction l with
  | nil => rfl
  | cons c rest ih =>
    have hc := h c (List.mem_cons_self c rest)
    have hrest := ih (fun d hd => h d (List.mem_cons_of_mem c hd))
    simp [List.flatMap_cons, hc, hrest]

/-- `sanitizeCore` rewritten through the single combined pass. -/
theorem sanitizeCore_eq (l : List Char) :
    sanitizeCore l =
      (match
        (match l.flatMap sanitizeCharModel with
          | [] => l.flatMap sanitizeCharModel
          | c :: _ =>
            if !(c.isAlpha || c == '_') then
              ['j', 'o', 'b', '-'] ++ l.flatMap sanitizeCharModel
            else l.flatMap sanitizeCharModel) with
        | [] => ['u', 'n', 'k', 'n', 'o', 'w', 'n', '-', 'j', 'o', 'b']
        | c :: rest => c :: rest) := by
  simp only [sanitizeCore, sanitize_replace_chain]

theorem sanitizeCore_chars_inert (l : List Char) :
    ∀ c ∈ sanitizeCore l, sanitizeCharModel c = [c] := by
  have hflat : ∀ c ∈ l.flatMap sanitizeCharModel, sanitizeCharModel c = [c] := by
    intro c hc
    rcases List.mem_flatMap.mp hc with ⟨a, _, ha⟩
    exact sanitizeCharModel_inert a c ha
  rw [sanitizeCore_eq]
  rcases hs : l.flatMap sanitizeCharModel with _ | ⟨c, t⟩
  · simp only [hs]
    intro c hc
    revert c
    decide
  · rw [hs] at hflat
    simp only [hs]
    rcases hcond : (!(c.isAlpha || c == '_')) with _ | _
    · simp only [hcond, Bool.false_eq_true, if_false]
      exact hflat
    · simp only [hcond, if_true]
      intro d hd
      simp only [List.cons_append, List.nil_append, List.mem_cons] at hd
      rcases hd with rfl | rfl | rfl | rfl | hd
      · decide
      · decide
      · decide
      · decide
      · exact hflat d (List.mem_cons.mpr hd)

theorem sanitizeCore_head_ok (l : List Char) :
    ∃ c t, sanitizeCore l = c :: t ∧ (c.isAlpha || c == '_') = true := by
  rw [sanitizeCore_eq]
  rcases hs : l.flatMap sanitizeCharModel with _ | ⟨c, t⟩
  · simp only [hs]
    exact ⟨'u', _, rfl, by decide⟩
  · simp only [hs]
    rcases hcond : (!(c.isAlpha || c == '_')) with _ | _
    · have hok : (c.isAlpha || c == '_') = true := by
        revert hcond
        cases c.isAlpha || c == '_' <;> simp
      simp only [hcond, Bool.false_eq_true, if_false]
      exact ⟨c, t, rfl, hok⟩
    · simp only [hcond, if_true]
      exact ⟨'j', _, rfl, by decide⟩

theorem sanitizeCore_idem (l : List Char) : sanitizeCore (sanitizeCore l) = sanitizeCore l := by
  obtain ⟨c, t, heq, hok⟩ := sanitizeCore_head_ok l
  have hinert := sanitizeCore_chars_inert l
  rw [sanitizeCore_eq (sanitizeCore l)]
  rw [flatMap_inert (sanitizeCore l) hinert]
  rw [heq]
  simp [hok]

/-! ## Claims C3 and C10 -/

/-- Claim C3, counterexample: the source sanitizer deletes parentheses instead
of replacing them with hyphens, so on the identity "(x)" the code returns "x"
while the claimed replacement rules would return "job--x-". -/
theorem paren_replacement_counterexample :
    sanitize_job_name "(x)" = "x" ∧ sanitizeNameClaimC3 "(x)" = "job--x-" ∧
      sanitize_job_name "(x)" ≠ sanitizeNameClaimC3 "(x)" := by
  refine ⟨by decide, by decide, by decide⟩

/-- Claim C3 (amended): the sanitizer is a pure total function on identity
strings that replaces `/`, `:` and space with hyphens and `+` with the literal
word "plus", deletes `(` and `)`, returns the fixed placeholder "unknown-job"
when the result is empty, prefixes the fixed marker segment "job-" when the
first character is not a letter or underscore, and in particular maps
"gcc/12.3.0-rome" to "gcc-12.3.0-rome". -/
theorem sanitizer_charwise_description :
    (∀ s : String, sanitize_job_name s = sanitizeNameAmendedC3 s) ∧
      sanitize_job_name "gcc/12.3.0-rome" = "gcc-12.3.0-rome" := by
  constructor
  · intro s
    show String.mk (sanitizeCore s.data) = sanitizeNameAmendedC3 s
    rw [sanitizeCore_eq]
    unfold sanitizeNameAmendedC3
    rcases hs : s.data.flatMap sanitizeCharModel with _ | ⟨c, t⟩
    · simp only [hs]
    · simp only [hs]
      rcases hcond : (!(c.isAlpha || c == '_')) with _ | _
      · simp only [hcond, Bool.false_eq_true, if_false]
      · simp only [hcond, if_true, List.cons_append]
  · decide

/-- Claim C10: the job-name sanitizer is idempotent — sanitizing an already
sanitized name leaves it unchanged, because the output contains none of the
replaced characters and always starts with a letter or underscore. -/
theorem sanitizer_idempotent (s : String) :
    sanitize_job_name (sanitize_job_name s) = sanitize_job_name s := by
  show String.mk (sanitizeCore (sanitizeCore s.data)) = String.mk (sanitizeCore s.data)
  rw [sanitizeCore_idem]

/-- Claim C10, witness at a concrete input. -/
theorem sanitizer_idempotent_witness :
    sanitize_job_name (sanitize_job_name "gcc/12.3.0 (rome)+x") =
      sanitize_job_name "gcc/12.3.0 (rome)+x" :=
  sanitizer_idempotent "gcc/12.3.0 (rome)+x"

/-! ## The dependency graph builder: claims C1, C2, C8 -/

/-- `module_to_job` always mirrors `PIPELINE_JOBS`: the two are updated
together with the same key and value. -/
theorem moduleToJob_eq_pipelineJobs (easyconfigs : List ECSpec) :
    (process_easyconfigs_for_jobs easyconfigs).moduleToJob =
      (process_easyconfigs_for_jobs easyconfigs).pipelineJobs := by
  suffices h : ∀ st : ProcState, st.moduleToJob = st.pipelineJobs →
      (easyconfigs.foldl processOne st).moduleToJob =
        (easyconfigs.foldl processOne st).pipelineJobs from h ⟨[], [], []⟩ rfl
  induction easyconfigs with
  | nil => exact fun st h => h
  | cons ec rest ih =>
    intro st h
    refine ih (processOne st ec) ?_
    unfold processOne
    cases ec.resolvedModuleName with
    | none => exact h
    | some m => simp [h]

/-- Claim C1: for an input sequence in which every dependency appears before
its dependents, the job generated for a spec records as pipeline dependencies
exactly those resolved non-external dependencies whose identity is already in
the job set built from the earlier specs — no more and no fewer — and the
spec's own identity is inserted only afterwards, so a job never depends on
itself unless an earlier spec already produced the same identity. -/
theorem edge_set_matches_earlier_jobs (pre : List ECSpec) (ec : ECSpec) (m : String)
    (horder : deps_before_dependents (pre ++ [ec]) [] = true)
    (hm : ec.resolvedModuleName = some m) :
    (alGet m (processOne (process_easyconfigs_for_jobs pre) ec).jobDependencies =
      some ((nonExternalResolvedDeps ec).filter
        (fun n => (alGet n (process_easyconfigs_for_jobs pre).pipelineJobs).isSome)))
    ∧ (alGet m (process_easyconfigs_for_jobs pre).pipelineJobs = none →
        m ∉ (nonExternalResolvedDeps ec).filter
          (fun n => (alGet n (process_easyconfigs_for_jobs pre).pipelineJobs).isSome)) := by
  constructor
  · unfold processOne
    rw [hm]
    simp only
    rw [alGet_alInsert_self]
    rw [moduleToJob_eq_pipelineJobs]
  · intro hnone hmem
    have := List.of_mem_filter hmem
    rw [hnone] at this
    simp at this

/-- Claim C1, witness: a two-spec run `[X, Y]` with `Y` depending on `X`. -/
theorem edge_set_matches_earlier_jobs_witness :
    deps_before_dependents
        [⟨"X", "1", "X-1.eb", "tc", some "X/1", []⟩,
         ⟨"Y", "1", "Y-1.eb", "tc", some "Y/1", [⟨false, some "X/1"⟩]⟩] [] = true
    ∧ (⟨"Y", "1", "Y-1.eb", "tc", some "Y/1",
        [⟨false, some "X/1"⟩]⟩ : ECSpec).resolvedModuleName = some "Y/1"
    ∧ ((alGet "Y/1" (processOne
          (process_easyconfigs_for_jobs [⟨"X", "1", "X-1.eb", "tc", some "X/1", []⟩])
          ⟨"Y", "1", "Y-1.eb", "tc", some "Y/1", [⟨false, some "X/1"⟩]⟩).jobDependencies =
        some ((nonExternalResolvedDeps
            ⟨"Y", "1", "Y-1.eb", "tc", some "Y/1", [⟨false, some "X/1"⟩]⟩).filter
          (fun n => (alGet n (process_easyconfigs_for_jobs
            [⟨"X", "1", "X-1.eb", "tc", some "X/1", []⟩]).pipelineJobs).isSome)))
      ∧ (alGet "Y/1" (process_easyconfigs_for_jobs
            [⟨"X", "1", "X-1.eb", "tc", some "X/1", []⟩]).pipelineJobs = none →
          "Y/1" ∉ (nonExternalResolvedDeps
              ⟨"Y", "1", "Y-1.eb", "tc", some "Y/1", [⟨false, some "X/1"⟩]⟩).filter
            (fun n => (alGet n (process_easyconfigs_for_jobs
              [⟨"X", "1", "X-1.eb", "tc", some "X/1", []⟩]).pipelineJobs).isSome))) :=
  ⟨by decide, rfl,
    edge_set_matches_earlier_jobs [⟨"X", "1", "X-1.eb", "tc", some "X/1", []⟩]
      ⟨"Y", "1", "Y-1.eb", "tc", some "Y/1", [⟨false, some "X/1"⟩]⟩ "Y/1" (by decide) rfl⟩

theorem nonExternalResolvedDeps_strip (ec : ECSpec) :
    nonExternalResolvedDeps (stripExternalDeps ec) = nonExternalResolvedDeps ec := by
  unfold nonExternalResolvedDeps stripExternalDeps
  simp [List.filter_filter]

theorem processOne_stripExternalDeps (st : ProcState) (ec : ECSpec) :
    processOne st (stripExternalDeps ec) = processOne st ec := by
  unfold processOne
  have hm : (stripExternalDeps ec).resolvedModuleName = ec.resolvedModuleName := rfl
  rw [hm]
  cases ec.resolvedModuleName with
  | none => rfl
  | some m =>
    simp only [nonExternalResolvedDeps_strip]
    rfl

/-- Claim C2: a dependency flagged `external_module` never contributes an edge
or any other part of the run state — deleting all external dependencies from
every spec leaves the whole job set, every recorded dependency list and the
generated pipeline (including every `needs` list) unchanged, whether or not a
job with the same identity exists in the run. -/
theorem external_deps_never_edges (ecs : List ECSpec) (argv : List String)
    (env : String → Option String) :
    process_easyconfigs_for_jobs (ecs.map stripExternalDeps) = process_easyconfigs_for_jobs ecs
    ∧ generate_base_pipeline argv env
        (process_easyconfigs_for_jobs (ecs.map stripExternalDeps)).pipelineJobs
        (process_easyconfigs_for_jobs (ecs.map stripExternalDeps)).jobDependencies
      = generate_base_pipeline argv env
          (process_easyconfigs_for_jobs ecs).pipelineJobs
          (process_easyconfigs_for_jobs ecs).jobDependencies := by
  have hmain : ∀ st : ProcState,
      (ecs.map stripExternalDeps).foldl processOne st = ecs.foldl processOne st := by
    induction ecs with
    | nil => exact fun _ => rfl
    | cons ec rest ih =>
      intro st
      simp only [List.map_cons, List.foldl_cons, processOne_stripExternalDeps]
      exact ih _
  have h1 : process_easyconfigs_for_jobs (ecs.map stripExternalDeps) =
      process_easyconfigs_for_jobs ecs := hmain ⟨[], [], []⟩
  exact ⟨h1, by rw [h1]⟩

theorem foldl_processOne_all_failed (post : List ECSpec) (st : ProcState)
    (h : ∀ e ∈ post, e.resolvedModuleName = none) : post.foldl processOne st = st := by
  induction post generalizing st with
  | nil => rfl
  | cons e rest ih =>
    have he := h e (List.mem_cons_self e rest)
    have hst : processOne st e = st := by
      unfold processOne
      rw [he]
    rw [List.foldl_cons, hst]
    exact ih st (fun x hx => h x (List.mem_cons_of_mem e hx))

/-- Claim C8: resolution failures are local and atomic — a spec whose own
identity does not resolve leaves the state untouched; a spec whose identity
resolves always yields a job, and an unresolvable dependency inside it changes
nothing but the loss of that one entry; processing decomposes over the input
list, so later specs only extend the state built from earlier ones, and a run
of failing later specs leaves every previously added job intact. -/
theorem resolution_failures_local (st : ProcState) (ec : ECSpec) (m : String)
    (d1 d2 : List DepSpec) (bad : DepSpec) (pre post : List ECSpec) :
    processOne st { ec with resolvedModuleName := none } = st
    ∧ (alGet m (processOne st { ec with resolvedModuleName := some m }).pipelineJobs).isSome
        = true
    ∧ processOne st { ec with allDependencies := d1 ++ { bad with resolvedName := none } :: d2 }
        = processOne st { ec with allDependencies := d1 ++ d2 }
    ∧ process_easyconfigs_for_jobs (pre ++ post)
        = post.foldl processOne (process_easyconfigs_for_jobs pre)
    ∧ ((∀ e ∈ post, e.resolvedModuleName = none) →
        process_easyconfigs_for_jobs (pre ++ post) = process_easyconfigs_for_jobs pre) := by
  refine ⟨rfl, ?_, ?_, ?_, ?_⟩
  · unfold processOne
    simp only [alGet_alInsert_self, Option.isSome_some]
  · have hkey : ((d1 ++ { bad with resolvedName := none } :: d2).filter
          (fun d => !d.externalModule)).filterMap DepSpec.resolvedName
        = ((d1 ++ d2).filter (fun d => !d.externalModule)).filterMap DepSpec.resolvedName := by
      cases hb : bad.externalModule <;>
        simp [List.filter_append, List.filterMap_append, List.filter_cons,
          List.filterMap_cons, hb]
    unfold processOne
    cases hm : ec.resolvedModuleName with
    | none => rfl
    | some m' => simp only [nonExternalResolvedDeps, hkey]
  · simp [process_easyconfigs_for_jobs, List.foldl_append]
  · intro h
    show (pre ++ post).foldl processOne ⟨[], [], []⟩ = process_easyconfigs_for_jobs pre
    rw [List.foldl_append]
    exact foldl_processOne_all_failed post _ h

/-- Claim C8, witness: state untouched by a failing spec, job created for a
resolving spec, a single unresolvable dependency dropped without affecting the
job, and a failing later spec leaving the earlier job intact. -/
theorem resolution_failures_local_witness :
    (∀ e ∈ ([⟨"B", "1", "B.eb", "tc", none, []⟩] : List ECSpec), e.resolvedModuleName = none)
    ∧ processOne ⟨[], [], []⟩
        { (⟨"A", "1", "A.eb", "tc", some "A/1", []⟩ : ECSpec) with resolvedModuleName := none }
        = ⟨[], [], []⟩
    ∧ (alGet "A/1" (processOne ⟨[], [], []⟩
        { (⟨"A", "1", "A.eb", "tc", some "A/1", []⟩ : ECSpec) with
            resolvedModuleName := some "A/1" }).pipelineJobs).isSome = true
    ∧ processOne ⟨[], [], []⟩
        { (⟨"A", "1", "A.eb", "tc", some "A/1", []⟩ : ECSpec) with
            allDependencies := [] ++ { (⟨false, some "X"⟩ : DepSpec) with
              resolvedName := none } :: [] }
        = processOne ⟨[], [], []⟩
            { (⟨"A", "1", "A.eb", "tc", some "A/1", []⟩ : ECSpec) with allDependencies := [] ++ [] }
    ∧ process_easyconfigs_for_jobs
          ([⟨"A", "1", "A.eb", "tc", some "A/1", []⟩] ++ [⟨"B", "1", "B.eb", "tc", none, []⟩])
        = process_easyconfigs_for_jobs [⟨"A", "1", "A.eb", "tc", some "A/1", []⟩] := by
  have hfail : ∀ e ∈ ([⟨"B", "1", "B.eb", "tc", none, []⟩] : List ECSpec),
      e.resolvedModuleName = none := by
    intro e he
    simp at he
    rw [he]
  have h := resolution_failures_local ⟨[], [], []⟩ ⟨"A", "1", "A.eb", "tc", some "A/1", []⟩
    "A/1" [] [] ⟨false, some "X"⟩ [⟨"A", "1", "A.eb", "tc", some "A/1", []⟩]
    [⟨"B", "1", "B.eb", "tc", none, []⟩]
  exact ⟨hfail, h.1, h.2.1, h.2.2.1, h.2.2.2.2 hfail⟩

/-- Claim C7: with an empty job set, pipeline generation produces no manifest
document at all and returns normally (the logged warning is its only effect),
whether or not a `.gitlab-ci.yml` configuration is present. -/
theorem empty_jobs_no_manifest (argv : List String) (env : String → Option String)
    (jobDependencies : List (String × List String))
    (gitlab_ci : Option (List (String × Val) × List (String × Val))) :
    generate_and_inject_pipeline argv env [] jobDependencies gitlab_ci = none := rfl

/-! ## Claim C4: sanitized names as manifest keys -/

theorem mem_alInsert_map_fst {α : Type} (l : List (String × α)) (k : String) (v : α) :
    k ∈ (alInsert l k v).map Prod.fst := by
  by_cases h : k ∈ l.map Prod.fst
  · rw [alInsert_map_fst_of_mem l k v h]
    exact h
  · rw [alInsert_map_fst_of_not_mem l k v h]
    simp

/-- One job-loop iteration adds exactly the sanitized name as a key, unless it
is already a key of the pipeline (in which case that entry is overwritten). -/
theorem add_job_keys (argv : List String) (env : String → Option String)
    (jobDependencies : List (String × List String)) (pipeline : List (String × Val))
    (mj : String × JobInfo) :
    (add_job_to_pipeline argv env jobDependencies pipeline mj).map Prod.fst =
      if sanitize_job_name mj.1 ∈ pipeline.map Prod.fst then pipeline.map Prod.fst
      else pipeline.map Prod.fst ++ [sanitize_job_name mj.1] := by
  unfold add_job_to_pipeline
  simp only []
  split
  · by_cases h : sanitize_job_name mj.1 ∈ pipeline.map Prod.fst
    · rw [alInsert_map_fst_of_mem _ _ _ h, if_pos h]
    · rw [alInsert_map_fst_of_not_mem _ _ _ h, if_neg h]
  · rw [alInsert_map_fst_of_mem _ _ _ (mem_alInsert_map_fst pipeline _ _)]
    by_cases h : sanitize_job_name mj.1 ∈ pipeline.map Prod.fst
    · rw [alInsert_map_fst_of_mem _ _ _ h, if_pos h]
    · rw [alInsert_map_fst_of_not_mem _ _ _ h, if_neg h]

/-- Generic fold lemma: a step function that keys each element by a name
function `f` (appending fresh keys, overwriting existing ones) produces, on
pairwise-fresh inputs, exactly one key per element in order. -/
theorem foldl_keys_generic {β : Type} (step : List (String × Val) → β → List (String × Val))
    (f : β → String)
    (hstep : ∀ (p : List (String × Val)) (b : β), (step p b).map Prod.fst =
      if f b ∈ p.map Prod.fst then p.map Prod.fst else p.map Prod.fst ++ [f b])
    (jobs : List β) :
    ∀ p : List (String × Val),
      (∀ b ∈ jobs, f b ∉ p.map Prod.fst) →
      (jobs.map f).Nodup →
      (jobs.foldl step p).map Prod.fst = p.map Prod.fst ++ jobs.map f := by
  induction jobs with
  | nil =>
    intro p _ _
    simp
  | cons b rest ih =>
    intro p hfresh hnodup
    rw [List.foldl_cons]
    have hkeys := hstep p b
    rw [if_neg (hfresh b (List.mem_cons_self b rest))] at hkeys
    simp only [List.map_cons, List.nodup_cons] at hnodup
    have hfresh' : ∀ b' ∈ rest, f b' ∉ (step p b).map Prod.fst := by
      intro b' hb'
      rw [hkeys]
      simp only [List.mem_append, List.mem_singleton, not_or]
      refine ⟨hfresh b' (List.mem_cons_of_mem b hb'), ?_⟩
      intro heq
      apply hnodup.1
      rw [← heq]
      exact List.mem_map_of_mem f hb'
    rw [ih (step p b) hfresh' hnodup.2]
    rw [hkeys]
    simp

/-- Claim C4 (amended): sanitized names need not be injective in general, but
whenever the distinct module identities of a run do sanitize to pairwise
distinct names (and none collides with the reserved `stages`/`variables`
sections), the emitted manifest holds exactly one job entry per job of the job
set, keyed by the sanitized names in job order. -/
theorem distinct_sanitized_names_one_entry_per_job (argv : List String)
    (env : String → Option String) (jobs : List (String × JobInfo))
    (jobDependencies : List (String × List String))
    (hnodup : (jobs.map (fun mj => sanitize_job_name mj.1)).Nodup)
    (hmeta : ∀ mj ∈ jobs,
      sanitize_job_name mj.1 ≠ "stages" ∧ sanitize_job_name mj.1 ≠ "variables") :
    (generate_base_pipeline argv env jobs jobDependencies).map Prod.fst
      = "stages" :: "variables" :: jobs.map (fun mj => sanitize_job_name mj.1) := by
  unfold generate_base_pipeline
  rw [foldl_keys_generic (add_job_to_pipeline argv env jobDependencies)
    (fun mj => sanitize_job_name mj.1) (add_job_keys argv env jobDependencies) jobs _ ?_ hnodup]
  · rfl
  · intro mj hmj
    obtain ⟨h1, h2⟩ := hmeta mj hmj
    simp [h1, h2]

/-- Claim C4, witness: two jobs with distinct sanitized names produce exactly
the two job entries. -/
theorem distinct_sanitized_names_witness :
    ((([("X/1", ⟨"X-1.eb", "X/1", "X-1.eb", [], [], "tc", "1"⟩),
        ("Y/1", ⟨"Y-1.eb", "Y/1", "Y-1.eb", [], [], "tc", "1"⟩)] :
          List (String × JobInfo)).map (fun mj => sanitize_job_name mj.1)).Nodup)
    ∧ (∀ mj ∈ ([("X/1", ⟨"X-1.eb", "X/1", "X-1.eb", [], [], "tc", "1"⟩),
        ("Y/1", ⟨"Y-1.eb", "Y/1", "Y-1.eb", [], [], "tc", "1"⟩)] : List (String × JobInfo)),
        sanitize_job_name mj.1 ≠ "stages" ∧ sanitize_job_name mj.1 ≠ "variables")
    ∧ (generate_base_pipeline ["eb"] (fun _ => none)
          [("X/1", ⟨"X-1.eb", "X/1", "X-1.eb", [], [], "tc", "1"⟩),
           ("Y/1", ⟨"Y-1.eb", "Y/1", "Y-1.eb", [], [], "tc", "1"⟩)] []).map Prod.fst
        = "stages" :: "variables" ::
            ([("X/1", ⟨"X-1.eb", "X/1", "X-1.eb", [], [], "tc", "1"⟩),
              ("Y/1", ⟨"Y-1.eb", "Y/1", "Y-1.eb", [], [], "tc", "1"⟩)] :
                List (String × JobInfo)).map (fun mj => sanitize_job_name mj.1) :=
  ⟨by decide, by decide,
    distinct_sanitized_names_one_entry_per_job ["eb"] (fun _ => none)
      [("X/1", ⟨"X-1.eb", "X/1", "X-1.eb", [], [], "tc", "1"⟩),
       ("Y/1", ⟨"Y-1.eb", "Y/1", "Y-1.eb", [], [], "tc", "1"⟩)] [] (by decide) (by decide)⟩

/-- Claim C4, counterexample: the distinct identities "g/cc" and "g:cc" both
sanitize to "g-cc"; a run producing both jobs yields a job set of size two but
a manifest with a single job entry (the second job overwrites the first). -/
theorem sanitized_name_collision_counterexample :
    ("g/cc" : String) ≠ "g:cc"
    ∧ sanitize_job_name "g/cc" = sanitize_job_name "g:cc"
    ∧ (process_easyconfigs_for_jobs
        [⟨"a", "1", "a-1.eb", "tc", some "g/cc", []⟩,
         ⟨"b", "1", "b-1.eb", "tc", some "g:cc", []⟩]).pipelineJobs.length = 2
    ∧ ((generate_base_pipeline ["eb"] (fun _ => none)
          (process_easyconfigs_for_jobs
            [⟨"a", "1", "a-1.eb", "tc", some "g/cc", []⟩,
             ⟨"b", "1", "b-1.eb", "tc", some "g:cc", []⟩]).pipelineJobs
          (process_easyconfigs_for_jobs
            [⟨"a", "1", "a-1.eb", "tc", some "g/cc", []⟩,
             ⟨"b", "1", "b-1.eb", "tc", some "g:cc", []⟩]).jobDependencies).filter
        (fun kv => !isMetaKey kv.1)).length = 1 := by
  refine ⟨by decide, by decide, by decide, by decide⟩

/-! ## The configuration merger: claims C5, C6, C9 -/

theorem optEntry_congr (k : String) (a b : List (String × Val)) (h : alGet k a = alGet k b) :
    optEntry k a = optEntry k b := by
  unfold optEntry
  rw [h]

theorem alGet_optEntry_append_ne (k k' : String) (c rest : List (String × Val)) (h : k' ≠ k) :
    alGet k (optEntry k' c ++ rest) = alGet k rest := by
  unfold optEntry
  cases alGet k' c with
  | none => simp
  | some v => simp [alGet, h]

theorem alGet_optEntry_append_self (k : String) (c rest : List (String × Val)) :
    alGet k (optEntry k c ++ rest) =
      match alGet k c with
      | some v => some v
      | none => alGet k rest := by
  unfold optEntry
  cases alGet k c with
  | none => simp
  | some v => simp [alGet]

theorem alGet_filter_meta (k : String) (hk : isMetaKey k = true) (pl : List (String × Val)) :
    alGet k (pl.filter (fun kv => !isMetaKey kv.1)) = none := by
  induction pl with
  | nil => rfl
  | cons kv rest ih =>
    by_cases h : isMetaKey kv.1 = true
    · simp [List.filter_cons, h, ih]
    · have hne : kv.1 ≠ k := by
        intro he
        rw [he, hk] at h
        exact h rfl
      simp [List.filter_cons, h, alGet, hne, ih]

theorem filter_optEntry_meta (k : String) (hk : isMetaKey k = true) (c : List (String × Val)) :
    (optEntry k c).filter (fun kv => !isMetaKey kv.1) = [] := by
  unfold optEntry
  cases alGet k c with
  | none => rfl
  | some v => simp [List.filter_cons, hk]

theorem filter_meta_idem (pl : List (String × Val)) :
    (pl.filter (fun kv => !isMetaKey kv.1)).filter (fun kv => !isMetaKey kv.1)
      = pl.filter (fun kv => !isMetaKey kv.1) := by
  rw [List.filter_filter]
  simp

theorem alGet_reorder_stages (d pl : List (String × Val)) :
    alGet "stages" (reorder_pipeline d pl) = alGet "stages" pl := by
  unfold reorder_pipeline
  rw [alGet_optEntry_append_self]
  cases hs : alGet "stages" pl with
  | some v => rfl
  | none =>
    rw [alGet_optEntry_append_ne _ _ _ _ (by decide)]
    rw [alGet_append]
    cases d.isEmpty <;>
      simp [alGet, alGet_filter_meta "stages" (by decide)]

theorem alGet_reorder_variables (d pl : List (String × Val)) :
    alGet "variables" (reorder_pipeline d pl) = alGet "variables" pl := by
  unfold reorder_pipeline
  rw [alGet_optEntry_append_ne _ _ _ _ (by decide)]
  rw [alGet_optEntry_append_self]
  cases hs : alGet "variables" pl with
  | some v => rfl
  | none =>
    rw [alGet_append]
    cases d.isEmpty <;>
      simp [alGet, alGet_filter_meta "variables" (by decide)]

theorem alGet_reorder_default (d pl : List (String × Val)) (hd : d.isEmpty = false) :
    alGet "default" (reorder_pipeline d pl) = some (Val.vmap d) := by
  unfold reorder_pipeline
  rw [alGet_optEntry_append_ne _ _ _ _ (by decide)]
  rw [alGet_optEntry_append_ne _ _ _ _ (by decide)]
  rw [hd]
  simp [alGet]

theorem filter_meta_reorder (d pl : List (String × Val)) :
    (reorder_pipeline d pl).filter (fun kv => !isMetaKey kv.1)
      = pl.filter (fun kv => !isMetaKey kv.1) := by
  unfold reorder_pipeline
  rw [List.filter_append, List.filter_append, List.filter_append]
  rw [filter_optEntry_meta _ (by decide), filter_optEntry_meta _ (by decide)]
  rw [filter_meta_idem]
  cases d.isEmpty <;> simp [List.filter_cons, isMetaKey]

theorem reorder_reorder (d pl : List (String × Val)) :
    reorder_pipeline d (reorder_pipeline d pl) = reorder_pipeline d pl := by
  conv_lhs => rw [reorder_pipeline]
  rw [optEntry_congr _ _ _ (alGet_reorder_stages d pl),
    optEntry_congr _ _ _ (alGet_reorder_variables d pl),
    filter_meta_reorder]
  rfl

/-- Full characterisation of the child-variable merge loop: a key already
present keeps its value; an absent key receives the value of the first
non-self-referential pair for it, if any. -/
theorem alGet_foldl_addChildVar (child : List (String × Val)) :
    ∀ (vars : List (String × Val)) (k : String),
      alGet k (child.foldl addChildVar vars) =
        match alGet k vars with
        | some v => some v
        | none =>
          (child.find? (fun kv => decide (kv.1 = k) && !selfRef kv.1 kv.2)).map Prod.snd := by
  induction child with
  | nil =>
    intro vars k
    cases h : alGet k vars <;> simp [h]
  | cons kv rest ih =>
    intro vars k
    rw [List.foldl_cons]
    by_cases hself : selfRef kv.1 kv.2 = true
    · rw [show addChildVar vars kv = vars by unfold addChildVar; rw [if_pos hself]]
      rw [ih vars k]
      have hcond : (decide (kv.1 = k) && !selfRef kv.1 kv.2) = false := by
        rw [hself]
        simp
      rw [List.find?_cons, hcond]
    · by_cases hpres : (alGet kv.1 vars).isSome = true
      · rw [show addChildVar vars kv = vars by
          unfold addChildVar
          rw [if_neg hself, if_pos hpres]]
        rw [ih vars k]
        by_cases hk : kv.1 = k
        · obtain ⟨w, hw⟩ := Option.isSome_iff_exists.mp hpres
          rw [hk] at hw
          rw [hw]
        · have hcond : (decide (kv.1 = k) && !selfRef kv.1 kv.2) = false := by
            simp [hk]
          rw [List.find?_cons, hcond]
      · rw [show addChildVar vars kv = vars ++ [kv] by
          unfold addChildVar
          rw [if_neg hself, if_neg hpres]]
        rw [ih (vars ++ [kv]) k]
        rw [alGet_append]
        by_cases hk : kv.1 = k
        · have hvars : alGet k vars = none := by
            rw [← hk]
            cases hg : alGet kv.1 vars with
            | none => rfl
            | some w =>
              rw [hg] at hpres
              simp at hpres
          have hself' : selfRef kv.1 kv.2 = false := by
            revert hself
            cases selfRef kv.1 kv.2 <;> simp
          have hcond : (decide (kv.1 = k) && !selfRef kv.1 kv.2) = true := by
            rw [hself']
            simp [hk]
          rw [hvars]
          rw [show alGet k [kv] = some kv.2 by simp [alGet, hk]]
          rw [List.find?_cons, hcond]
          rfl
        · have hcond : (decide (kv.1 = k) && !selfRef kv.1 kv.2) = false := by
            simp [hk]
          rw [show alGet k [kv] = none by simp [alGet, hk]]
          rw [List.find?_cons, hcond]
          cases alGet k vars <;> rfl

theorem foldl_addChildVar_fixed (child : List (String × Val)) (vars : List (String × Val))
    (h : ∀ kv ∈ child, addChildVar vars kv = vars) : child.foldl addChildVar vars = vars := by
  induction child with
  | nil => rfl
  | cons kv rest ih =>
    rw [List.foldl_cons, h kv (List.mem_cons_self kv rest)]
    exact ih (fun kv' hkv' => h kv' (List.mem_cons_of_mem kv hkv'))

theorem foldl_addChildVar_idem (child vars : List (String × Val)) :
    child.foldl addChildVar (child.foldl addChildVar vars) = child.foldl addChildVar vars := by
  apply foldl_addChildVar_fixed
  intro kv hkv
  set V := child.foldl addChildVar vars with hV
  show addChildVar V kv = V
  by_cases hself : selfRef kv.1 kv.2 = true
  · unfold addChildVar
    rw [if_pos hself]
  · have hsome : (alGet kv.1 V).isSome = true := by
      rw [hV, alGet_foldl_addChildVar]
      cases hv : alGet kv.1 vars with
      | some w => simp
      | none =>
        have hfind : (child.find? (fun kv' =>
            decide (kv'.1 = kv.1) && !selfRef kv'.1 kv'.2)).isSome = true :=
          List.find?_isSome.mpr ⟨kv, hkv, by simp [hself]⟩
        obtain ⟨x, hx⟩ := Option.isSome_iff_exists.mp hfind
        simp [hx]
    unfold addChildVar
    rw [if_neg hself, if_pos hsome]

theorem alGet_dictUpdate_not_mem (src : List (String × Val)) (k : String)
    (h : k ∉ src.map Prod.fst) :
    ∀ dst : List (String × Val), alGet k (dictUpdate dst src) = alGet k dst := by
  induction src with
  | nil => exact fun _ => rfl
  | cons kv rest ih =>
    intro dst
    simp only [List.map_cons, List.mem_cons, not_or] at h
    show alGet k (dictUpdate (alInsert dst kv.1 kv.2) rest) = alGet k dst
    rw [ih (fun hm => h.2 hm) (alInsert dst kv.1 kv.2)]
    exact alGet_alInsert_ne dst k kv.1 kv.2 (fun he => h.1 he.symm)

theorem alGet_dictUpdate_mem_nodup (src : List (String × Val))
    (hnodup : (src.map Prod.fst).Nodup) :
    ∀ kv ∈ src, ∀ dst : List (String × Val), alGet kv.1 (dictUpdate dst src) = some kv.2 := by
  induction src with
  | nil =>
    intro kv hkv
    simp at hkv
  | cons a rest ih =>
    intro kv hkv dst
    simp only [List.map_cons, List.nodup_cons] at hnodup
    rcases List.mem_cons.mp hkv with rfl | hkv'
    · show alGet kv.1 (dictUpdate (alInsert dst kv.1 kv.2) rest) = some kv.2
      rw [alGet_dictUpdate_not_mem rest kv.1 hnodup.1]
      exact alGet_alInsert_self dst kv.1 kv.2
    · exact ih hnodup.2 kv hkv' (alInsert dst a.1 a.2)

theorem dictUpdate_fixed (src dst : List (String × Val))
    (h : ∀ kv ∈ src, alGet kv.1 dst = some kv.2) : dictUpdate dst src = dst := by
  induction src with
  | nil => rfl
  | cons kv rest ih =>
    show dictUpdate (alInsert dst kv.1 kv.2) rest = dst
    rw [alInsert_of_alGet_eq dst kv.1 kv.2 (h kv (List.mem_cons_self kv rest))]
    exact ih (fun kv' hkv' => h kv' (List.mem_cons_of_mem kv hkv'))

theorem dictUpdate_idem (src : List (String × Val)) (hnodup : (src.map Prod.fst).Nodup)
    (dst : List (String × Val)) :
    dictUpdate (dictUpdate dst src) src = dictUpdate dst src :=
  dictUpdate_fixed src _ (fun kv hkv => alGet_dictUpdate_mem_nodup src hnodup kv hkv dst)

theorem default_entries_retry (config : List (String × Val)) :
    alGet "retry" (default_entries config)
      = some ((alGet "retry" config).getD retry_fallback) := by
  unfold default_entries
  rw [alGet_optEntry_append_ne _ _ _ _ (by decide),
    alGet_optEntry_append_ne _ _ _ _ (by decide),
    alGet_optEntry_append_ne _ _ _ _ (by decide),
    alGet_optEntry_append_ne _ _ _ _ (by decide)]
  rfl

theorem default_entries_isEmpty (config : List (String × Val)) :
    (default_entries config).isEmpty = false := by
  cases h : default_entries config with
  | nil =>
    have := default_entries_retry config
    rw [h] at this
    simp [alGet] at this
  | cons a rest => rfl

theorem retry_mem_default_entries (config : List (String × Val)) :
    ("retry", (alGet "retry" config).getD retry_fallback) ∈ default_entries config := by
  unfold default_entries
  simp

theorem default_entries_keys_nodup (config : List (String × Val)) :
    ((default_entries config).map Prod.fst).Nodup := by
  unfold default_entries optEntry
  rcases alGet "before_script" config with _ | v1 <;>
    rcases alGet "after_script" config with _ | v2 <;>
    rcases alGet "tags" config with _ | v3 <;>
    rcases alGet "id_tokens" config with _ | v4 <;>
    rcases alGet "timeout" config with _ | v6 <;>
    rcases alGet "image" config with _ | v7 <;>
    simp

/-- Claim C6: after the configuration merge — in the hook's
`_inject_configuration` and in `inject_pipeline_metadata` alike — the
manifest's `default.retry` is the external document's `retry` value when the
document provides one and the fixed fallback
`{max: 2, when: [runner_system_failure, stuck_or_timeout_failure, job_execution_timeout]}`
otherwise. -/
theorem retry_merge_value (pipeline data default_config child_variables : List (String × Val)) :
    alGet "retry" (asMapD (alGet "default"
        (inject_configuration pipeline default_config child_variables)))
      = some ((alGet "retry" default_config).getD retry_fallback)
    ∧ alGet "retry" (asMapD (alGet "default"
        (inject_pipeline_metadata data default_config child_variables)))
      = some ((alGet "retry" default_config).getD retry_fallback) := by
  constructor
  · unfold inject_configuration
    rw [alGet_reorder_default _ _ (default_entries_isEmpty default_config)]
    exact default_entries_retry default_config
  · unfold inject_pipeline_metadata
    have hretry : alGet "retry" (dictUpdate (asMapD (alGet "default" data))
        (default_entries default_config))
        = some ((alGet "retry" default_config).getD retry_fallback) :=
      alGet_dictUpdate_mem_nodup (default_entries default_config)
        (default_entries_keys_nodup default_config)
        ("retry", (alGet "retry" default_config).getD retry_fallback)
        (retry_mem_default_entries default_config) (asMapD (alGet "default" data))
    cases hc : child_variables.isEmpty
    · simp only [hc, Bool.false_eq_true, if_false]
      rw [alGet_alInsert_ne _ _ _ _ (by decide), alGet_alInsert_self]
      exact hretry
    · simp only [hc, if_true]
      rw [alGet_alInsert_self]
      exact hretry

/-- Claim C5 (amended): in the pipeline-generation hook's merge
(`_inject_configuration`), a key already present in the generated `variables`
keeps its generated value, and an absent key receives the value of the first
external pair for it whose value is not the self-referential placeholder
`$key` — in particular a self-referential pair is never copied. (The
standalone `inject_defaults.py` merge behaves differently, see the
counterexample.) -/
theorem hook_child_variables_merge (pipeline default_config child_variables :
    List (String × Val)) (k : String) :
    (∀ v : Val, alGet k (asMapD (alGet "variables" pipeline)) = some v →
      alGet k (asMapD (alGet "variables"
        (inject_configuration pipeline default_config child_variables))) = some v)
    ∧ (alGet k (asMapD (alGet "variables" pipeline)) = none →
      alGet k (asMapD (alGet "variables"
        (inject_configuration pipeline default_config child_variables)))
        = (child_variables.find? (fun kv => decide (kv.1 = k) && !selfRef kv.1 kv.2)).map
            Prod.snd) := by
  unfold inject_configuration
  cases hc : child_variables.isEmpty
  · simp only [hc, Bool.false_eq_true, if_false]
    rw [alGet_reorder_variables, alGet_alInsert_self]
    simp only [asMapD]
    constructor
    · intro v hv
      rw [alGet_foldl_addChildVar, hv]
    · intro hnone
      rw [alGet_foldl_addChildVar, hnone]
  · have hnil : child_variables = [] := by
      cases child_variables with
      | nil => rfl
      | cons a l => simp at hc
    subst hnil
    simp only [if_true]
    rw [alGet_reorder_variables]
    exact ⟨fun v hv => hv, fun hnone => by rw [hnone]; rfl⟩

/-- Claim C5, witness: with generated variables `{A: x}` and external child
variables `[A: y, B: $B, C: z]`, the hook's merge keeps `A = x`, never copies
the self-referential `B`, and adds the absent key `C`. -/
theorem hook_child_variables_merge_witness :
    alGet "A" (asMapD (alGet "variables"
        ([("variables", Val.vmap [("A", Val.vstr "x")])] : List (String × Val))))
      = some (Val.vstr "x")
    ∧ alGet "B" (asMapD (alGet "variables"
        ([("variables", Val.vmap [("A", Val.vstr "x")])] : List (String × Val)))) = none
    ∧ alGet "C" (asMapD (alGet "variables"
        ([("variables", Val.vmap [("A", Val.vstr "x")])] : List (String × Val)))) = none
    ∧ alGet "A" (asMapD (alGet "variables" (inject_configuration
        [("variables", Val.vmap [("A", Val.vstr "x")])] []
        [("A", Val.vstr "y"), ("B", Val.vstr "$B"), ("C", Val.vstr "z")])))
      = some (Val.vstr "x")
    ∧ alGet "B" (asMapD (alGet "variables" (inject_configuration
        [("variables", Val.vmap [("A", Val.vstr "x")])] []
        [("A", Val.vstr "y"), ("B", Val.vstr "$B"), ("C", Val.vstr "z")])))
      = (([("A", Val.vstr "y"), ("B", Val.vstr "$B"),
          ("C", Val.vstr "z")] : List (String × Val)).find?
          (fun kv => decide (kv.1 = "B") && !selfRef kv.1 kv.2)).map Prod.snd
    ∧ alGet "C" (asMapD (alGet "variables" (inject_configuration
        [("variables", Val.vmap [("A", Val.vstr "x")])] []
        [("A", Val.vstr "y"), ("B", Val.vstr "$B"), ("C", Val.vstr "z")])))
      = (([("A", Val.vstr "y"), ("B", Val.vstr "$B"),
          ("C", Val.vstr "z")] : List (String × Val)).find?
          (fun kv => decide (kv.1 = "C") && !selfRef kv.1 kv.2)).map Prod.snd :=
  ⟨rfl, rfl, rfl,
    (hook_child_variables_merge [("variables", Val.vmap [("A", Val.vstr "x")])] []
      [("A", Val.vstr "y"), ("B", Val.vstr "$B"), ("C", Val.vstr "z")] "A").1
      (Val.vstr "x") rfl,
    (hook_child_variables_merge [("variables", Val.vmap [("A", Val.vstr "x")])] []
      [("A", Val.vstr "y"), ("B", Val.vstr "$B"), ("C", Val.vstr "z")] "B").2 rfl,
    (hook_child_variables_merge [("variables", Val.vmap [("A", Val.vstr "x")])] []
      [("A", Val.vstr "y"), ("B", Val.vstr "$B"), ("C", Val.vstr "z")] "C").2 rfl⟩

/-- Claim C5, counterexample: the standalone `inject_defaults.py` merge — one
of the claim's two cited code paths — merges the child variables with
`variables.update(child_variables)`: with generated variables `{A: x}` and
external pairs `[A: y, B: $B]` the existing key `A` is overwritten with `y`,
and the self-referential pair `B: $B` is copied into the output. -/
theorem metadata_merge_overwrites_counterexample :
    alGet "A" (asMapD (alGet "variables"
        ([("variables", Val.vmap [("A", Val.vstr "x")])] : List (String × Val))))
      = some (Val.vstr "x")
    ∧ selfRef "B" (Val.vstr "$B") = true
    ∧ alGet "A" (asMapD (alGet "variables" (inject_pipeline_metadata
        [("variables", Val.vmap [("A", Val.vstr "x")])] []
        [("A", Val.vstr "y"), ("B", Val.vstr "$B")])))
      = some (Val.vstr "y")
    ∧ alGet "B" (asMapD (alGet "variables" (inject_pipeline_metadata
        [("variables", Val.vmap [("A", Val.vstr "x")])] []
        [("A", Val.vstr "y"), ("B", Val.vstr "$B")])))
      = some (Val.vstr "$B") :=
  ⟨rfl, by decide, rfl, rfl⟩

/-- Claim C9: merging the same external defaults document twice produces the
same manifest (same keys, values and section order) as merging it once — both
for the hook's `_inject_configuration` and for the standalone
`inject_pipeline_metadata`. The external child variables come from a YAML
mapping, so their keys are assumed distinct. -/
theorem configuration_merge_idempotent
    (pipeline data default_config child_variables : List (String × Val))
    (hchild : (child_variables.map Prod.fst).Nodup) :
    inject_configuration (inject_configuration pipeline default_config child_variables)
        default_config child_variables
      = inject_configuration pipeline default_config child_variables
    ∧ inject_pipeline_metadata (inject_pipeline_metadata data default_config child_variables)
        default_config child_variables
      = inject_pipeline_metadata data default_config child_variables := by
  constructor
  · unfold inject_configuration
    cases hc : child_variables.isEmpty
    · simp only [hc, Bool.false_eq_true, if_false]
      rw [alGet_reorder_variables]
      rw [alGet_alInsert_self]
      simp only [asMapD]
      rw [foldl_addChildVar_idem]
      rw [alInsert_of_alGet_eq _ _ _ (by
        rw [alGet_reorder_variables]
        exact alGet_alInsert_self _ _ _)]
      exact reorder_reorder _ _
    · simp only [hc, if_true]
      exact reorder_reorder _ _
  · unfold inject_pipeline_metadata
    cases hc : child_variables.isEmpty
    · simp only [hc, Bool.false_eq_true, if_false]
      set D1 := dictUpdate (asMapD (alGet "default" data)) (default_entries default_config)
        with hD1
      set data1 := alInsert data "default" (Val.vmap D1) with hdata1
      set U1 := dictUpdate (asMapD (alGet "variables" data1)) child_variables with hU1
      set data2 := alInsert data1 "variables" (Val.vmap U1) with hdata2
      have h1 : alGet "default" data2 = some (Val.vmap D1) := by
        rw [hdata2, alGet_alInsert_ne _ _ _ _ (by decide), hdata1]
        exact alGet_alInsert_self _ _ _
      have h2 : dictUpdate D1 (default_entries default_config) = D1 := by
        rw [hD1]
        exact dictUpdate_idem _ (default_entries_keys_nodup default_config) _
      rw [h1]
      simp only [asMapD]
      rw [h2]
      rw [alInsert_of_alGet_eq _ _ _ h1]
      have h4 : alGet "variables" data2 = some (Val.vmap U1) := by
        rw [hdata2]
        exact alGet_alInsert_self _ _ _
      rw [h4]
      simp only [asMapD]
      have h5 : dictUpdate U1 child_variables = U1 := by
        rw [hU1]
        exact dictUpdate_idem _ hchild _
      rw [h5]
      exact alInsert_of_alGet_eq _ _ _ h4
    · simp only [hc, if_true]
      set D1 := dictUpdate (asMapD (alGet "default" data)) (default_entries default_config)
        with hD1
      set data1 := alInsert data "default" (Val.vmap D1) with hdata1
      have h1 : alGet "default" data1 = some (Val.vmap D1) := by
        rw [hdata1]
        exact alGet_alInsert_self _ _ _
      have h2 : dictUpdate D1 (default_entries default_config) = D1 := by
        rw [hD1]
        exact dictUpdate_idem _ (default_entries_keys_nodup default_config) _
      rw [h1]
      simp only [asMapD]
      rw [h2]
      exact alInsert_of_alGet_eq _ _ _ h1

/-- Claim C9, witness: idempotence at a concrete pipeline, document and child
variables with distinct keys. -/
theorem configuration_merge_idempotent_witness :
    ((([("A", Val.vstr "y"), ("B", Val.vstr "$B")] : List (String × Val)).map
      Prod.fst).Nodup)
    ∧ inject_configuration (inject_configuration
          [("stages", Val.vlist [Val.vstr "build"]),
           ("variables", Val.vmap [("A", Val.vstr "x")])]
          [("retry", Val.vstr "r")] [("A", Val.vstr "y"), ("B", Val.vstr "$B")])
        [("retry", Val.vstr "r")] [("A", Val.vstr "y"), ("B", Val.vstr "$B")]
      = inject_configuration
          [("stages", Val.vlist [Val.vstr "build"]),
           ("variables", Val.vmap [("A", Val.vstr "x")])]
          [("retry", Val.vstr "r")] [("A", Val.vstr "y"), ("B", Val.vstr "$B")]
    ∧ inject_pipeline_metadata (inject_pipeline_metadata
          [("variables", Val.vmap [("A", Val.vstr "x")])]
          [("retry", Val.vstr "r")] [("A", Val.vstr "y"), ("B", Val.vstr "$B")])
        [("retry", Val.vstr "r")] [("A", Val.vstr "y"), ("B", Val.vstr "$B")]
      = inject_pipeline_metadata
          [("variables", Val.vmap [("A", Val.vstr "x")])]
          [("retry", Val.vstr "r")] [("A", Val.vstr "y"), ("B", Val.vstr "$B")] := by
  refine ⟨by decide, ?_, ?_⟩
  · exact (configuration_merge_idempotent
      [("stages", Val.vlist [Val.vstr "build"]), ("variables", Val.vmap [("A", Val.vstr "x")])]
      [("variables", Val.vmap [("A", Val.vstr "x")])]
      [("retry", Val.vstr "r")] [("A", Val.vstr "y"), ("B", Val.vstr "$B")] (by decide)).1
  · exact (configuration_merge_idempotent
      [("stages", Val.vlist [Val.vstr "build"]), ("variables", Val.vmap [("A", Val.vstr "x")])]
      [("variables", Val.vmap [("A", Val.vstr "x")])]
      [("retry", Val.vstr "r")] [("A", Val.vstr "y"), ("B", Val.vstr "$B")] (by decide)).2

end EBHook
